import Mathlib

/-!
Verification development for the 3D bin-packing fitness core (Problem.py).

The embedding mirrors the Python source:
- item extents and EMS corners are natural-number triples;
- an EMS is a pair (minimum corner, maximum corner);
- Python tuple comparisons with >= and <= are lexicographic, and np.all of a
  single Bool is that Bool, so Bin.inscribed is a lexicographic test;
- the working item list is the same object as problem.items (self.items is an
  alias), so decode routes reads and writes through the problem field;
- numpy ceil on a gene is modelled on rationals as negated floor of negation;
- Python exceptions are modelled by returning the state reached at the point
  of the raise together with an error value.
-/

/-- An extent or corner: lengths along X, Y, Z. -/
abbrev Item := ℕ × ℕ × ℕ

/-- A working-list entry: get_size can return None, which decode stores. -/
abbrev OItem := Option Item

/-- An EMS: (minimum corner, maximum corner), as in the 2-element Python list. -/
abbrev EMS := Item × Item

/-- Errors raised by the Python code: the explicit ValueError in decode, and
the TypeError from unpacking or indexing None. -/
inductive PErr where
  | invalidLength : PErr
  | typeError : PErr
deriving DecidableEq, Repr

/-- Placement.Bin: a size, the EMS list, and the accumulated load. -/
structure Bin where
  size : Item
  EMSs : List EMS
  load : ℕ
deriving DecidableEq, Repr

/-- Bin.__init__(size): one EMS from the origin to the full bin size. -/
def Bin.init (size : Item) : Bin :=
  { size := size, EMSs := [((0, 0, 0), size)], load := 0 }

/-- Bin.fit(item, EMS): the range(3) loop returns False at the first axis where
EMS.min[i] + item[i] > EMS.max[i], else True. -/
def Bin.fit (item : Item) (e : EMS) : Bool :=
  if e.1.1 + item.1 > e.2.1 then false
  else if e.1.2.1 + item.2.1 > e.2.2.1 then false
  else if e.1.2.2 + item.2.2 > e.2.2.2 then false
  else true

/-- The squared distance from the placed item's far corner to the bin's far
corner, computed with Python integers (may go negative inside, so ℤ). -/
def Bin.dist (size : Item) (item : Item) (e : EMS) : ℤ :=
  ((size.1 : ℤ) - (e.1.1 + item.1 : ℕ)) ^ 2
    + ((size.2.1 : ℤ) - (e.1.2.1 + item.2.1 : ℕ)) ^ 2
    + ((size.2.2 : ℤ) - (e.1.2.2 + item.2.2 : ℕ)) ^ 2

/-- One iteration of the loop in Bin.choose: on a fitting EMS whose distance
strictly exceeds the running maximum, the running pair is replaced. -/
def Bin.chooseStep (size item : Item) (acc : ℤ × Option EMS) (e : EMS) :
    ℤ × Option EMS :=
  if Bin.fit item e then
    if Bin.dist size item e > acc.1 then (Bin.dist size item e, some e) else acc
  else acc

/-- Bin.choose(item): scan the EMS list, keeping the first fitting EMS whose
distance strictly exceeds the running maximum (initialised to -1). -/
def Bin.choose (b : Bin) (item : Item) : Option EMS :=
  (b.EMSs.foldl (Bin.chooseStep b.size item) ((-1 : ℤ), (none : Option EMS))).2

/-- Python tuple comparison a >= b on 3-tuples: lexicographic. -/
def lexGe (a b : Item) : Bool :=
  if a.1 > b.1 then true
  else if a.1 < b.1 then false
  else if a.2.1 > b.2.1 then true
  else if a.2.1 < b.2.1 then false
  else decide (a.2.2 ≥ b.2.2)

/-- Bin.inscribed(EMS1, EMS2): np.all(EMS1[0] >= EMS2[0]) and
np.all(EMS1[1] <= EMS2[1]).  The operands are Python tuples, so the
comparisons are lexicographic and np.all of the resulting Bool is identity. -/
def Bin.inscribed (e1 e2 : EMS) : Bool :=
  lexGe e1.1 e2.1 && lexGe e2.2 e1.2

/-- One iteration of the candidate loop in Bin.update: a candidate is appended
iff it passes the degeneracy check (min < max on every axis) and is not
inscribed (lexicographically) in any EMS of the current list. -/
def Bin.updStep (acc : List EMS) (e : EMS) : List EMS :=
  if (decide (e.1.1 < e.2.1) && decide (e.1.2.1 < e.2.2.1)
        && decide (e.1.2.2 < e.2.2.2))
      && !(acc.any fun o => Bin.inscribed e o) then
    acc ++ [e]
  else acc

/-- Bin.update(item, selected_EMS): remove the chosen EMS, generate the three
far-face candidates, filter them sequentially against the current list, and
add the item's volume to the load. -/
def Bin.update (b : Bin) (item : Item) (selected_EMS : EMS) : Bin :=
  let x1 := selected_EMS.1.1
  let y1 := selected_EMS.1.2.1
  let z1 := selected_EMS.1.2.2
  let x2 := x1 + item.1
  let y2 := y1 + item.2.1
  let z2 := z1 + item.2.2
  let m := selected_EMS.2
  let new_EMSs : List EMS := [((x2, y1, z1), m), ((x1, y2, z1), m), ((x1, y1, z2), m)]
  { b with
    EMSs := new_EMSs.foldl Bin.updStep (b.EMSs.erase selected_EMS)
    load := b.load + item.1 * item.2.1 * item.2.2 }

/-- The Problem record (data fields set by __init__ after load_data). -/
structure Problem where
  bin_size : Item
  n_bins : ℕ
  n_items : ℕ
  total_volume : ℕ
  items : List OItem
  total_items : ℕ
  used_bins : ℕ
  loads : Option (List ℕ)
  best_fitness : Option ℚ
deriving DecidableEq, Repr

/-- Problem.__init__: total_items = n_items * n_bins, used_bins starts at
total_items, loads None, best_fitness np.inf (modelled as none). -/
def Problem.load (bin_size : Item) (n_bins n_items total_volume : ℕ)
    (items : List OItem) : Problem :=
  { bin_size := bin_size, n_bins := n_bins, n_items := n_items
    total_volume := total_volume, items := items
    total_items := n_items * n_bins, used_bins := n_items * n_bins
    loads := none, best_fitness := none }

/-- The Placement engine.  self.items is the same list object as
problem.items, so item reads and writes go through the problem field. -/
structure Placement where
  problem : Problem
  bin_size : Item
  n_bins : ℕ
  n_items : ℕ
  total_volume : ℕ
  used_bins : ℕ
  total_items : ℕ
  bins : List Bin
  loads : Option (List ℕ)
deriving DecidableEq, Repr

/-- Placement.__init__(problem): copy the scalar fields, start with one bin. -/
def Placement.init (p : Problem) : Placement :=
  { problem := p, bin_size := p.bin_size, n_bins := p.n_bins
    n_items := p.n_items, total_volume := p.total_volume
    used_bins := 1, total_items := p.n_items * p.n_bins
    bins := [Bin.init p.bin_size], loads := none }

/-- Exact rational addition, written through Rat.divInt so that it evaluates
inside the kernel; qadd_eq_add below proves it is ℚ addition. -/
def qadd (a b : ℚ) : ℚ :=
  Rat.divInt (a.num * b.den + b.num * a.den) (a.den * b.den)

/-- The rational n/1, in kernel-evaluable form; qnat_eq_cast below proves it
is the cast of n. -/
def qnat (n : ℕ) : ℚ := mkRat n 1

/-- get_orientation(gene) = int(np.ceil(6 * gene)).  6 * gene is the exact
fraction (6 * num)/den and ceil x = -floor(-x); the lemma
get_orientation_eq_ceil below proves this equals the ceiling of 6 * gene. -/
def Placement.get_orientation (gene : ℚ) : ℤ :=
  -(Rat.floor (Rat.divInt (-(6 * gene.num)) gene.den))

/-- get_size(item, orientation): the six axis permutations for 1..6; any
other orientation falls through and returns None. -/
def Placement.get_size (item : Item) (o : ℤ) : OItem :=
  let x := item.1
  let y := item.2.1
  let z := item.2.2
  if o = 1 then some (x, y, z)
  else if o = 2 then some (x, z, y)
  else if o = 3 then some (y, x, z)
  else if o = 4 then some (y, z, x)
  else if o = 5 then some (z, x, y)
  else if o = 6 then some (z, y, x)
  else none

/-- Stable insertion of index j into an index list sorted by the values xs. -/
def insertIdx (xs : List ℚ) (j : ℕ) : List ℕ → List ℕ
  | [] => [j]
  | k :: rest =>
      if xs.getD k 0 ≤ xs.getD j 0 then k :: insertIdx xs j rest
      else j :: k :: rest

/-- np.argsort: indices that sort xs ascending (stable). -/
def argsort (xs : List ℚ) : List ℕ :=
  (List.range xs.length).foldl (fun acc j => insertIdx xs j acc) []

/-- decode(solution): length check first (the ValueError precedes every
mutation), then for i in range(total_items) read items[i], orient it by gene
solution[total_items+i], and write the result at index orders[i] of the same
list.  Reading a None entry written earlier in the same loop raises (the
tuple unpacking in get_size), freezing the partially mutated list. -/
def Placement.decode (st : Placement) (solution : List ℚ) :
    Placement × Option PErr :=
  if solution.length ≠ 2 * st.total_items then (st, some PErr.invalidLength)
  else
    let orders := argsort (solution.take st.total_items)
    let r := (List.range st.total_items).foldl
      (fun acc i =>
        match acc.2 with
        | some _ => acc
        | none =>
          match acc.1.getD i none with
          | none => (acc.1, some PErr.typeError)
          | some item =>
            let o := Placement.get_orientation
              (solution.getD (st.total_items + i) 0)
            (acc.1.set (orders.getD i 0) (Placement.get_size item o), none))
      (st.problem.items, (none : Option PErr))
    ({ st with problem := { st.problem with items := r.1 } }, r.2)

/-- The bin loop of evaluate for one item.  Python iterates self.bins while
possibly appending to it, so the loop is over a growing list; the fuel
argument only bounds the iteration count and callers pass length + 2, which
exceeds the largest possible final length (at most one bin is appended per
item, since appending sets the selection and the append guard needs an empty
selection).  Each iteration: if choose returns an EMS the selection becomes
this bin; afterwards, if the selection is still empty, a fresh bin is
appended, used_bins incremented, and the fresh bin with its initial EMS
becomes the selection. -/
def Placement.placeLoop (size item : Item) :
    ℕ → List Bin → ℕ → ℕ → Option (ℕ × EMS) →
      List Bin × ℕ × Option (ℕ × EMS)
  | 0, bins, used, _, sel => (bins, used, sel)
  | fuel + 1, bins, used, i, sel =>
    if h : i < bins.length then
      match (bins.get ⟨i, h⟩).choose item with
      | some e => Placement.placeLoop size item fuel bins used (i + 1) (some (i, e))
      | none =>
        match sel with
        | some s => Placement.placeLoop size item fuel bins used (i + 1) (some s)
        | none =>
            Placement.placeLoop size item fuel (bins ++ [Bin.init size])
              (used + 1) (i + 1) (some (bins.length, ((0, 0, 0), size)))
    else (bins, used, sel)

/-- Place one item: run the bin loop from index 0 with empty selection, then
call update on the selected bin.  An empty selection at the end can only
happen with an empty bin list (Python would raise on None.update); engine
states always hold at least one bin. -/
def Placement.placeItem (st : Placement) (item : Item) : Placement :=
  match Placement.placeLoop st.bin_size item (st.bins.length + 2)
      st.bins st.used_bins 0 none with
  | (bins, used, some (idx, e)) =>
      { st with
        bins := bins.set idx ((bins.getD idx (Bin.init st.bin_size)).update item e)
        used_bins := used }
  | (bins, used, none) => { st with bins := bins, used_bins := used }

/-- The item loop of evaluate: a None entry raises inside choose (fit indexes
item) before any mutation of this iteration. -/
def Placement.placeAll : List OItem → Placement → Placement × Option PErr
  | [], st => (st, none)
  | none :: _, st => (st, some PErr.typeError)
  | some item :: rest, st => Placement.placeAll rest (st.placeItem item)

/-- Whether fitness improves on the stored best (np.inf when none). -/
def Problem.improves (f : ℚ) : Option ℚ → Bool
  | none => true
  | some b => decide (f < b)

/-- evaluate(solution): decode, place every item, then compute loads, the
least-load fraction, and the fitness, updating the Problem record on strict
improvement.  Errors propagate with the state reached at the raise. -/
def Placement.evaluate (st : Placement) (solution : List ℚ) :
    Placement × Except PErr ℚ :=
  match st.decode solution with
  | (st1, some e) => (st1, Except.error e)
  | (st1, none) =>
    match Placement.placeAll st1.problem.items st1 with
    | (st2, some e) => (st2, Except.error e)
    | (st2, none) =>
      let loadsL := st2.bins.map Bin.load
      -- bins is never empty in engine states (the constructor seeds one bin
      -- and the loop only appends), so the min? default is inert.  least and
      -- fitness are exact rational arithmetic in kernel-evaluable form; the
      -- lemmas mkRat_eq_div and qadd_eq_add relate them to ℚ division and
      -- addition.
      let least : ℚ := mkRat (loadsL.min?.getD 0)
        (st2.bin_size.1 * st2.bin_size.2.1 * st2.bin_size.2.2)
      let fitness : ℚ := qadd (qnat st2.used_bins) least
      let st3 := { st2 with loads := some loadsL }
      let st4 :=
        if Problem.improves fitness st3.problem.best_fitness then
          { st3 with problem :=
            { st3.problem with used_bins := st3.used_bins
                               best_fitness := some fitness
                               loads := some loadsL } }
        else st3
      (st4, Except.ok fitness)

/-! Spec-side predicates and reference definitions. -/

/-- Componentwise ≤ on corners. -/
def compLe (a b : Item) : Prop :=
  a.1 ≤ b.1 ∧ a.2.1 ≤ b.2.1 ∧ a.2.2 ≤ b.2.2

/-- The inscription relation as the spec words it: A is inscribed in B iff
A.min ≥ B.min and A.max ≤ B.max componentwise. -/
def inscribedCW (A B : EMS) : Prop :=
  compLe B.1 A.1 ∧ compLe A.2 B.2

/-- Strictly positive extent on all three axes. -/
def posExtentE (e : EMS) : Prop :=
  e.1.1 < e.2.1 ∧ e.1.2.1 < e.2.2.1 ∧ e.1.2.2 < e.2.2.2

/-- Propositional form of the lexicographic tuple order a ≥ b. -/
def lexGeP (a b : Item) : Prop :=
  b.1 < a.1 ∨ (a.1 = b.1 ∧ (b.2.1 < a.2.1 ∨ (a.2.1 = b.2.1 ∧ b.2.2 ≤ a.2.2)))

/-- Propositional form of the inscription test the code actually performs:
lexicographic on both corners. -/
def lexInscribedP (A B : EMS) : Prop :=
  lexGeP A.1 B.1 ∧ lexGeP B.2 A.2

/-- Symmetric non-inscription (componentwise), the pruning-invariant pair
relation. -/
def NIcw (e f : EMS) : Prop :=
  ¬ inscribedCW e f ∧ ¬ inscribedCW f e

/-- The bin invariant holding in every engine-reachable bin: every EMS has
the bin size as maximum corner and positive extent, and no EMS is inscribed
componentwise in another. -/
def BinInv (b : Bin) : Prop :=
  (∀ e ∈ b.EMSs, e.2 = b.size ∧ posExtentE e) ∧ b.EMSs.Pairwise NIcw

instance (a b : Item) : Decidable (compLe a b) := by
  unfold compLe; infer_instance

instance (A B : EMS) : Decidable (inscribedCW A B) := by
  unfold inscribedCW; infer_instance

instance (e : EMS) : Decidable (posExtentE e) := by
  unfold posExtentE; infer_instance

instance (a b : Item) : Decidable (lexGeP a b) := by
  unfold lexGeP; infer_instance

instance (A B : EMS) : Decidable (lexInscribedP A B) := by
  unfold lexInscribedP; infer_instance

instance (e f : EMS) : Decidable (NIcw e f) := by
  unfold NIcw; infer_instance

/-- Modelled from the spec: one filtering step of update as the claim words
it, discarding a candidate iff it is degenerate or componentwise inscribed
in an EMS still present. -/
def specStepCW (acc : List EMS) (c : EMS) : List EMS :=
  if posExtentE c ∧ ∀ e ∈ acc, ¬ inscribedCW c e then acc ++ [c] else acc

/-- Modelled from the spec: update as the claim words it (componentwise
inscription test), with the same removal, candidate generation, sequential
filtering and load accounting. -/
def specUpdateCW (b : Bin) (item : Item) (sel : EMS) : Bin :=
  let x1 := sel.1.1
  let y1 := sel.1.2.1
  let z1 := sel.1.2.2
  let x2 := x1 + item.1
  let y2 := y1 + item.2.1
  let z2 := z1 + item.2.2
  let m := sel.2
  let cands : List EMS := [((x2, y1, z1), m), ((x1, y2, z1), m), ((x1, y1, z2), m)]
  { b with
    EMSs := cands.foldl specStepCW (b.EMSs.erase sel)
    load := b.load + item.1 * item.2.1 * item.2.2 }

/-- One filtering step of update with the lexicographic inscription test the
code performs (amended reading of the claim). -/
def specStepLex (acc : List EMS) (c : EMS) : List EMS :=
  if posExtentE c ∧ ∀ e ∈ acc, ¬ lexInscribedP c e then acc ++ [c] else acc

/-- Update as amended: identical to the spec wording except that the
inscription test is the lexicographic tuple comparison. -/
def specUpdateLex (b : Bin) (item : Item) (sel : EMS) : Bin :=
  let x1 := sel.1.1
  let y1 := sel.1.2.1
  let z1 := sel.1.2.2
  let x2 := x1 + item.1
  let y2 := y1 + item.2.1
  let z2 := z1 + item.2.2
  let m := sel.2
  let cands : List EMS := [((x2, y1, z1), m), ((x1, y2, z1), m), ((x1, y1, z2), m)]
  { b with
    EMSs := cands.foldl specStepLex (b.EMSs.erase sel)
    load := b.load + item.1 * item.2.1 * item.2.2 }

/-! Concrete problem instances used by the claim theorems. -/

/-- Bin 10x10x10; item 1 fills the bin, items 2 and 3 each fill half. -/
def pC1 : Problem :=
  Problem.load (10, 10, 10) 1 3 2000
    [some (10, 10, 10), some (10, 10, 5), some (10, 10, 5)]

def stC1 : Placement := Placement.init pC1

/-- Ascending priorities (identity order), identity orientations. -/
def solC1 : List ℚ :=
  [mkRat 1 10, mkRat 2 10, mkRat 3 10, mkRat 1 12, mkRat 1 12, mkRat 1 12]

/-- The engine state after decoding solC1. -/
def stC1d : Placement := (stC1.decode solC1).1

/-- The engine state after placing the first two items of the run. -/
def stC1mid : Placement := (stC1d.placeItem (10, 10, 10)).placeItem (10, 10, 5)

/-- Two items of different volume. -/
def pC2 : Problem :=
  Problem.load (10, 10, 10) 1 2 9 [some (1, 1, 1), some (2, 2, 2)]

def stC2 : Placement := Placement.init pC2

/-- Priorities [0.7, 0.2] give packing order [1, 0]; identity orientations. -/
def solC2 : List ℚ := [mkRat 7 10, mkRat 2 10, mkRat 1 12, mkRat 1 12]

/-- Three items of pairwise different volume. -/
def pC3 : Problem :=
  Problem.load (10, 10, 10) 1 3 36
    [some (1, 1, 1), some (2, 2, 2), some (3, 3, 3)]

/-- Priorities [0.2, 0.3, 0.1] give packing order [2, 0, 1]; identity
orientations. -/
def solC3 : List ℚ :=
  [mkRat 2 10, mkRat 3 10, mkRat 1 10, mkRat 1 12, mkRat 1 12, mkRat 1 12]

/-- First run: a fresh engine on pC3. -/
def runC3a : Placement × Except PErr ℚ := (Placement.init pC3).evaluate solC3

/-- Second run: a second, independently constructed engine bound to the same
problem record (which the first run mutated in place through the items
alias), evaluating the identical unmutated vector. -/
def runC3b : Placement × Except PErr ℚ :=
  (Placement.init runC3a.1.problem).evaluate solC3

/-- A single item; the orientation gene 0 makes decode store None. -/
def pC5 : Problem := Problem.load (10, 10, 10) 1 1 6 [some (1, 2, 3)]

def stC5 : Placement := Placement.init pC5

def solC5 : List ℚ := [mkRat 1 2, 0]

/-- A reachable bin: fresh 10x10x10 bin after placing a (1,4,4) item at its
initial EMS; its EMS list is [((1,0,0),M), ((0,4,0),M), ((0,0,4),M)]. -/
def bC8 : Bin := (Bin.init (10, 10, 10)).update (1, 4, 4) ((0, 0, 0), (10, 10, 10))

/-- Two (10,10,5) items in a 10x10x10 bin: the spec scenario for fitness 2. -/
def pC9 : Problem :=
  Problem.load (10, 10, 10) 1 2 1000 [some (10, 10, 5), some (10, 10, 5)]

/-- Ascending priorities. -/
def solC9a : List ℚ := [mkRat 3 10, mkRat 6 10, mkRat 1 12, mkRat 1 12]

/-- Descending priorities. -/
def solC9b : List ℚ := [mkRat 6 10, mkRat 3 10, mkRat 1 12, mkRat 1 12]

/-- Two items; the zero orientation gene sits on the item processed first,
whose None result is written at an index read later in the same loop. -/
def pC10 : Problem :=
  Problem.load (10, 10, 10) 1 2 126 [some (1, 2, 3), some (4, 5, 6)]

def stC10 : Placement := Placement.init pC10

def solC10 : List ℚ := [mkRat 7 10, mkRat 2 10, 0, mkRat 1 12]

instance : DecidableEq (Except PErr ℚ) := fun a b =>
  match a, b with
  | Except.ok x, Except.ok y => decidable_of_iff (x = y) (by simp)
  | Except.error x, Except.error y => decidable_of_iff (x = y) (by simp)
  | Except.ok _, Except.error _ => isFalse (by simp)
  | Except.error _, Except.ok _ => isFalse (by simp)

/-! Bridging lemmas for the kernel-evaluable rational operations. -/

theorem qadd_eq_add (a b : ℚ) : qadd a b = a + b := by
  have ha : ((a.den : ℚ)) ≠ 0 := Nat.cast_ne_zero.mpr a.den_nz
  have hb : ((b.den : ℚ)) ≠ 0 := Nat.cast_ne_zero.mpr b.den_nz
  rw [qadd, Rat.divInt_eq_div]
  push_cast
  conv_rhs => rw [← Rat.num_div_den a, ← Rat.num_div_den b]
  rw [div_add_div _ _ ha hb]
  congr 1
  ring

theorem qnat_eq_cast (n : ℕ) : qnat n = (n : ℚ) := by
  rw [qnat, Rat.mkRat_eq_div]
  simp

theorem mkRat_eq_div_nat (a b : ℕ) : mkRat a b = (a : ℚ) / (b : ℚ) := by
  rw [Rat.mkRat_eq_div]
  push_cast
  rfl

theorem get_orientation_eq_ceil (g : ℚ) :
    Placement.get_orientation g = ⌈(6 : ℚ) * g⌉ := by
  have hfl : (Rat.divInt (-(6 * g.num)) (g.den : ℤ)).floor
      = ⌊Rat.divInt (-(6 * g.num)) (g.den : ℤ)⌋ := by
    rw [Rat.floor_def', ← Rat.floor_def]
  have h6 : Rat.divInt (-(6 * g.num)) (g.den : ℤ) = -((6 : ℚ) * g) := by
    rw [Rat.divInt_eq_div]
    push_cast
    rw [neg_div]
    congr 1
    rw [mul_div_assoc, Rat.num_div_den]
  rw [Placement.get_orientation, hfl, h6, Int.floor_neg, neg_neg]

/-! Claim theorems. -/

/-- C1: refuted on the code (the new-bin guard sits inside the bin loop).
With bin (10,10,10) and decoded items [(10,10,10),(10,10,5),(10,10,5)], after
two placements the engine has two bins and used_bins = 2, and the second
bin's choose returns a fitting EMS for the third item; yet placing the third
item appends a third bin and increments used_bins to 3, because the first
bin returned no fit.  The full evaluate run ends with used_bins = 3 and
loads [1000, 500, 500] instead of the two bins the claim implies. -/
theorem c1_eager_bin_opening :
    (stC1.decode solC1).2 = none ∧
    (stC1.decode solC1).1.problem.items =
      [some (10,10,10), some (10,10,5), some (10,10,5)] ∧
    stC1mid.used_bins = 2 ∧ stC1mid.bins.length = 2 ∧
    (stC1mid.bins.getD 1 (Bin.init (10,10,10))).choose (10,10,5) =
      some ((0,0,5),(10,10,10)) ∧
    (stC1mid.placeItem (10,10,5)).used_bins = 3 ∧
    (stC1mid.placeItem (10,10,5)).bins.length = 3 ∧
    (stC1.evaluate solC1).1.used_bins = 3 ∧
    (stC1.evaluate solC1).1.loads = some [1000, 500, 500] := by decide

/-- C2: refuted on the code.  decode overwrites the shared item list in
place and reads entries already overwritten in the same loop: with items
[(1,1,1),(2,2,2)] and priorities [0.7, 0.2] (order [1,0], identity
orientations) the decoded list is [(1,1,1),(1,1,1)] - the (2,2,2) item is
dropped and (1,1,1) is duplicated, so no permutation of the items arises. -/
theorem c2_decode_not_permutation :
    (stC2.decode solC2).2 = none ∧
    (stC2.decode solC2).1.problem.items = [some (1,1,1), some (1,1,1)] ∧
    (stC2.decode solC2).1.problem.items.count (some (2,2,2)) = 0 ∧
    stC2.problem.items.count (some (2,2,2)) = 1 ∧
    (stC2.decode solC2).1.problem.items.count (some (1,1,1)) = 2 ∧
    stC2.problem.items.count (some (1,1,1)) = 1 := by decide

/-- C3: refuted on the code.  Two fresh engines bound to the same problem
record evaluate the identical vector: the first run rewrites the shared item
list in place, so the second run decodes different items and returns fitness
1017/1000 against the first run's 101/100, with loads [17] against [10]. -/
theorem c3_shared_record_nondeterminism :
    runC3a.2 = Except.ok (mkRat 101 100) ∧
    runC3b.2 = Except.ok (mkRat 1017 1000) ∧
    runC3a.2 ≠ runC3b.2 ∧
    runC3a.1.loads = some [10] ∧ runC3b.1.loads = some [17] := by decide

/-- C5 counterexample: a failing evaluate call can commit mutations.  With a
single item (1,2,3) and solution [1/2, 0] the call fails with a type error
(the zero orientation gene made decode store None), yet the problem record's
item list has been changed from [(1,2,3)] to [None]. -/
theorem c5_failing_call_mutates :
    (stC5.evaluate solC5).2 = Except.error PErr.typeError ∧
    stC5.problem.items = [some (1,2,3)] ∧
    (stC5.evaluate solC5).1.problem.items = [none] := by decide

/-- C5 amended: evaluate fails with the invalid-input error whenever the
solution length differs from 2 * total_items, and on that failure no state
is mutated (the length check precedes every mutation); failures after the
length check can leave partial mutations behind. -/
theorem c5_length_failure_atomic (st : Placement) (sol : List ℚ)
    (h : sol.length ≠ 2 * st.total_items) :
    st.evaluate sol = (st, Except.error PErr.invalidLength) := by
  unfold Placement.evaluate Placement.decode
  rw [if_pos h]

/-- C5 witness: the amended theorem at the one-item engine and the empty
solution vector. -/
theorem c5_length_failure_atomic_witness :
    stC5.evaluate [] = (stC5, Except.error PErr.invalidLength) :=
  c5_length_failure_atomic stC5 [] (by decide)

/-- C6: fit accepts exactly when the item placed at the EMS minimum corner
stays within the EMS maximum corner on every single axis. -/
theorem c6_fit_iff_componentwise (item : Item) (e : EMS) :
    Bin.fit item e = true ↔
      (e.1.1 + item.1 ≤ e.2.1 ∧ e.1.2.1 + item.2.1 ≤ e.2.2.1 ∧
        e.1.2.2 + item.2.2 ≤ e.2.2.2) := by
  unfold Bin.fit
  split_ifs with h1 h2 h3 <;> simp <;> omega

/-- C10 counterexample: a valid-length solution with a zero orientation gene
can make decode raise.  With items [(1,2,3),(4,5,6)], priorities [0.7,0.2]
(order [1,0]) and orientation genes [0, 1/12], the None written for the
first item lands at index 1 and is read back at loop step 1, raising a type
error, so decode does not complete without error. -/
theorem c10_decode_can_raise :
    solC10.length = 2 * stC10.total_items ∧
    (stC10.decode solC10).2 = some PErr.typeError ∧
    (stC10.decode solC10).1.problem.items = [some (1,2,3), none] := by decide

/-- C10 amended: get_size returns None for every orientation outside 1..6
and get_orientation maps gene 0 to 0; a valid-length decode whose zero
orientation gene belongs to a single-item engine completes without raising
and stores None in the working item list.  (When the written None is read
back later in the same loop, decode raises instead.) -/
theorem c10_zero_gene_yields_none :
    (∀ (item : Item) (o : ℤ), o < 1 ∨ 6 < o → Placement.get_size item o = none) ∧
    Placement.get_orientation 0 = 0 ∧
    (∀ (st : Placement) (p : ℚ) (it : Item),
      st.total_items = 1 → st.problem.items = [some it] →
      (st.decode [p, 0]).2 = none ∧
      (st.decode [p, 0]).1.problem.items = [none]) := by
  refine ⟨?_, by decide, ?_⟩
  · intro item o ho
    unfold Placement.get_size
    split_ifs <;> first | omega | rfl
  · intro st p it h1 h2
    have horient : Placement.get_orientation 0 = 0 := by decide
    have hr : List.range 1 = [0] := rfl
    unfold Placement.decode
    rw [h1, h2]
    norm_num [argsort, insertIdx, hr, horient, Placement.get_size]

/-- C10 witness: the amended theorem at the one-item engine with priority
gene 1/2. -/
theorem c10_zero_gene_yields_none_witness :
    (stC5.decode [mkRat 1 2, 0]).2 = none ∧
    (stC5.decode [mkRat 1 2, 0]).1.problem.items = [none] :=
  c10_zero_gene_yields_none.2.2 stC5 (mkRat 1 2) (1, 2, 3) (by decide) (by decide)

/-- The squared distance is a sum of squares, hence non-negative. -/
theorem Bin.dist_nonneg (size item : Item) (e : EMS) :
    0 ≤ Bin.dist size item e := by
  unfold Bin.dist
  positivity

/-- Invariant of the choose fold: every fitting element of the scanned list
is dominated by the running maximum, the running maximum never decreases,
and the result is either the initial pair or the distance-selection pair of
some fitting element of the list. -/
theorem chooseStep_fold_spec (size item : Item) (l : List EMS) (d0 : ℤ)
    (s0 : Option EMS) :
    (∀ e ∈ l, Bin.fit item e = true →
        Bin.dist size item e ≤ (l.foldl (Bin.chooseStep size item) (d0, s0)).1) ∧
    d0 ≤ (l.foldl (Bin.chooseStep size item) (d0, s0)).1 ∧
    (l.foldl (Bin.chooseStep size item) (d0, s0) = (d0, s0) ∨
      ∃ e ∈ l, Bin.fit item e = true ∧
        l.foldl (Bin.chooseStep size item) (d0, s0)
          = (Bin.dist size item e, some e)) := by
  induction l generalizing d0 s0 with
  | nil => exact ⟨by simp, le_refl _, Or.inl rfl⟩
  | cons x xs ih =>
    rw [List.foldl_cons]
    by_cases hf : Bin.fit item x = true
    · by_cases hd : Bin.dist size item x > d0
      · have hstep : Bin.chooseStep size item (d0, s0) x
            = (Bin.dist size item x, some x) := by
          unfold Bin.chooseStep
          rw [if_pos hf, if_pos hd]
        rw [hstep]
        obtain ⟨ih1, ih2, ih3⟩ := ih (Bin.dist size item x) (some x)
        refine ⟨?_, le_trans (le_of_lt hd) ih2, ?_⟩
        · intro e he hfe
          rcases List.mem_cons.mp he with rfl | he2
          · exact ih2
          · exact ih1 e he2 hfe
        · rcases ih3 with h | ⟨e, he, hfe, heq⟩
          · exact Or.inr ⟨x, List.mem_cons_self x xs, hf, h⟩
          · exact Or.inr ⟨e, List.mem_cons_of_mem x he, hfe, heq⟩
      · have hstep : Bin.chooseStep size item (d0, s0) x = (d0, s0) := by
          unfold Bin.chooseStep
          rw [if_pos hf, if_neg hd]
        rw [hstep]
        obtain ⟨ih1, ih2, ih3⟩ := ih d0 s0
        refine ⟨?_, ih2, ?_⟩
        · intro e he hfe
          rcases List.mem_cons.mp he with rfl | he2
          · exact le_trans (not_lt.mp hd) ih2
          · exact ih1 e he2 hfe
        · rcases ih3 with h | ⟨e, he, hfe, heq⟩
          · exact Or.inl h
          · exact Or.inr ⟨e, List.mem_cons_of_mem x he, hfe, heq⟩
    · have hstep : Bin.chooseStep size item (d0, s0) x = (d0, s0) := by
        unfold Bin.chooseStep
        rw [if_neg hf]
      rw [hstep]
      obtain ⟨ih1, ih2, ih3⟩ := ih d0 s0
      refine ⟨?_, ih2, ?_⟩
      · intro e he hfe
        rcases List.mem_cons.mp he with rfl | he2
        · exact absurd hfe hf
        · exact ih1 e he2 hfe
      · rcases ih3 with h | ⟨e, he, hfe, heq⟩
        · exact Or.inl h
        · exact Or.inr ⟨e, List.mem_cons_of_mem x he, hfe, heq⟩

/-- C7: choose returns None exactly when no EMS of the bin fits the item,
and any returned EMS belongs to the bin, fits the item, and maximises the
squared distance from the item's far corner to the bin's far corner among
all fitting EMSs. -/
theorem c7_choose_farthest_fit (b : Bin) (item : Item) :
    (b.choose item = none ↔ ∀ e ∈ b.EMSs, Bin.fit item e = false) ∧
    (∀ e, b.choose item = some e →
      e ∈ b.EMSs ∧ Bin.fit item e = true ∧
      ∀ f ∈ b.EMSs, Bin.fit item f = true →
        Bin.dist b.size item f ≤ Bin.dist b.size item e) := by
  obtain ⟨h1, h2, h3⟩ := chooseStep_fold_spec b.size item b.EMSs (-1) none
  unfold Bin.choose
  constructor
  · constructor
    · intro hn e he
      rcases h3 with hfold | ⟨f, hf, hff, heq⟩
      · by_contra hne
        simp only [Bool.not_eq_false] at hne
        have hle := h1 e he hne
        rw [hfold] at hle
        have hge := Bin.dist_nonneg b.size item e
        omega
      · rw [heq] at hn
        simp at hn
    · intro hall
      rcases h3 with hfold | ⟨f, hf, hff, heq⟩
      · rw [hfold]
      · rw [hall f hf] at hff
        simp at hff
  · intro e hsome
    rcases h3 with hfold | ⟨f, hf, hff, heq⟩
    · rw [hfold] at hsome
      simp at hsome
    · rw [heq] at hsome
      simp only [Option.some.injEq] at hsome
      subst hsome
      refine ⟨hf, hff, ?_⟩
      intro g hg hfg
      have hle := h1 g hg hfg
      rw [heq] at hle
      exact hle

/-- C7 witness: the fresh 10x10x10 bin and item (2,3,4); choose returns the
initial EMS, which is a fitting maximiser. -/
theorem c7_choose_farthest_fit_witness :
    ((0,0,0),(10,10,10)) ∈ (Bin.init (10,10,10)).EMSs ∧
    Bin.fit (2,3,4) ((0,0,0),(10,10,10)) = true ∧
    ∀ f ∈ (Bin.init (10,10,10)).EMSs, Bin.fit (2,3,4) f = true →
      Bin.dist (Bin.init (10,10,10)).size (2,3,4) f ≤
        Bin.dist (Bin.init (10,10,10)).size (2,3,4) ((0,0,0),(10,10,10)) :=
  (c7_choose_farthest_fit (Bin.init (10,10,10)) (2,3,4)).2
    ((0,0,0),(10,10,10)) (by decide)

/-- The boolean lexicographic comparison agrees with its propositional form. -/
theorem lexGe_iff (a b : Item) : lexGe a b = true ↔ lexGeP a b := by
  unfold lexGe lexGeP
  split_ifs <;> simp <;> omega

/-- The code's inscription test agrees with the propositional lexicographic
inscription relation. -/
theorem inscribed_iff (A B : EMS) :
    Bin.inscribed A B = true ↔ lexInscribedP A B := by
  unfold Bin.inscribed lexInscribedP
  rw [Bool.and_eq_true, lexGe_iff, lexGe_iff]

/-- The update filtering step of the code coincides with the lexicographic
spec step. -/
theorem updStep_eq_specStepLex (acc : List EMS) (c : EMS) :
    Bin.updStep acc c = specStepLex acc c := by
  unfold Bin.updStep specStepLex
  refine if_congr ?_ rfl rfl
  simp only [Bool.and_eq_true, decide_eq_true_eq, Bool.not_eq_true',
    List.any_eq_false, posExtentE]
  constructor
  · rintro ⟨⟨⟨h1, h2⟩, h3⟩, h4⟩
    exact ⟨⟨h1, h2, h3⟩, fun e he hins =>
      h4 e he ((inscribed_iff c e).mpr hins)⟩
  · rintro ⟨⟨h1, h2, h3⟩, h4⟩
    exact ⟨⟨⟨h1, h2⟩, h3⟩, fun e he hins =>
      h4 e he ((inscribed_iff c e).mp hins)⟩

/-- C8 amended: update is exactly the spec's removal, three far-face
candidates, sequential degenerate-or-inscribed filtering and volume
accounting, with the inscription test being the lexicographic tuple
comparison rather than the componentwise one. -/
theorem c8_update_lexicographic_spec (b : Bin) (item : Item) (sel : EMS) :
    Bin.update b item sel = specUpdateLex b item sel := by
  unfold Bin.update specUpdateLex
  simp only [List.foldl_cons, List.foldl_nil, updStep_eq_specStepLex]

/-- C8 counterexample: on the reachable bin bC8 (a fresh 10x10x10 bin after
placing a (1,4,4) item), updating with item (2,2,2) at EMS ((1,0,0),M)
discards all three candidates by the lexicographic test, while the claim's
componentwise rule would keep (3,0,0), (1,2,0) and (1,0,2); the code result
therefore differs from the claimed componentwise behaviour. -/
theorem c8_componentwise_pruning_refuted :
    Bin.update bC8 (2,2,2) ((1,0,0),(10,10,10)) ≠
      specUpdateCW bC8 (2,2,2) ((1,0,0),(10,10,10)) ∧
    (Bin.update bC8 (2,2,2) ((1,0,0),(10,10,10))).EMSs =
      [((0,4,0),(10,10,10)), ((0,0,4),(10,10,10))] ∧
    (specUpdateCW bC8 (2,2,2) ((1,0,0),(10,10,10))).EMSs =
      [((0,4,0),(10,10,10)), ((0,0,4),(10,10,10)), ((3,0,0),(10,10,10)),
       ((1,2,0),(10,10,10)), ((1,0,2),(10,10,10))] := by decide

/-- C9: on every successful evaluate call the returned fitness equals
used_bins plus the least bin load divided by the bin volume, and the loads
field records the per-bin loads; in the spec scenario (bin (10,10,10), two
(10,10,5) items, identity orientations, either priority order) the call
returns fitness 2 with one used bin and loads [1000]. -/
theorem c9_fitness_formula_and_scenario :
    (∀ (st st2 : Placement) (sol : List ℚ) (f : ℚ),
      st.evaluate sol = (st2, Except.ok f) →
      st2.loads = some (st2.bins.map Bin.load) ∧
      f = (st2.used_bins : ℚ) +
        (((st2.bins.map Bin.load).min?.getD 0 : ℕ) : ℚ)
          / ((st2.bin_size.1 * st2.bin_size.2.1 * st2.bin_size.2.2 : ℕ) : ℚ)) ∧
    (((Placement.init pC9).evaluate solC9a).2 = Except.ok 2 ∧
     ((Placement.init pC9).evaluate solC9a).1.used_bins = 1 ∧
     ((Placement.init pC9).evaluate solC9a).1.loads = some [1000] ∧
     ((Placement.init pC9).evaluate solC9b).2 = Except.ok 2 ∧
     ((Placement.init pC9).evaluate solC9b).1.used_bins = 1 ∧
     ((Placement.init pC9).evaluate solC9b).1.loads = some [1000]) := by
  constructor
  · intro st st2 sol f h
    unfold Placement.evaluate at h
    split at h
    · simp [Prod.ext_iff] at h
    · split at h
      · simp [Prod.ext_iff] at h
      · dsimp only at h
        split at h <;>
        · simp only [Prod.mk.injEq, Except.ok.injEq] at h
          obtain ⟨h1, h2⟩ := h
          subst h1
          subst h2
          refine ⟨rfl, ?_⟩
          dsimp only
          rw [qadd_eq_add, qnat_eq_cast, mkRat_eq_div_nat]
  · decide

/-- C9 witness: the formula conjunct applied to the concrete scenario run
with ascending priorities, whose fitness is 2. -/
theorem c9_fitness_formula_and_scenario_witness :
    ((Placement.init pC9).evaluate solC9a).1.loads =
      some (((Placement.init pC9).evaluate solC9a).1.bins.map Bin.load) ∧
    (2 : ℚ) = (((Placement.init pC9).evaluate solC9a).1.used_bins : ℚ) +
      (((((Placement.init pC9).evaluate solC9a).1.bins.map Bin.load).min?.getD 0 : ℕ) : ℚ)
        / ((((Placement.init pC9).evaluate solC9a).1.bin_size.1 *
            ((Placement.init pC9).evaluate solC9a).1.bin_size.2.1 *
            ((Placement.init pC9).evaluate solC9a).1.bin_size.2.2 : ℕ) : ℚ) :=
  c9_fitness_formula_and_scenario.1 (Placement.init pC9)
    ((Placement.init pC9).evaluate solC9a).1 solC9a 2 (by decide)

/-- The symmetric non-inscription relation is symmetric. -/
theorem NIcw_symm : ∀ x y : EMS, NIcw x y → NIcw y x :=
  fun _ _ h => ⟨h.2, h.1⟩

/-- Componentwise order is transitive. -/
theorem compLe_trans {a b c : Item} (h1 : compLe a b) (h2 : compLe b c) :
    compLe a c := by
  obtain ⟨x1, y1, z1⟩ := h1
  obtain ⟨x2, y2, z2⟩ := h2
  exact ⟨le_trans x1 x2, le_trans y1 y2, le_trans z1 z2⟩

/-- Componentwise dominance implies lexicographic dominance. -/
theorem lexGeP_of_compLe {a b : Item} (h : compLe b a) : lexGeP a b := by
  obtain ⟨h1, h2, h3⟩ := h
  unfold lexGeP
  omega

/-- A componentwise inscription is also a lexicographic inscription, so the
code discards at least every componentwise-inscribed candidate. -/
theorem lexInscribedP_of_inscribedCW {A B : EMS} (h : inscribedCW A B) :
    lexInscribedP A B :=
  ⟨lexGeP_of_compLe h.1, lexGeP_of_compLe h.2⟩

/-- In a pairwise-related list, the erased element is related to every
element remaining after the erasure. -/
theorem rel_of_pairwise_erase {R : EMS → EMS → Prop}
    (hsym : ∀ x y, R x y → R y x) :
    ∀ {l : List EMS} {a : EMS}, l.Pairwise R → a ∈ l →
      ∀ e ∈ l.erase a, R a e := by
  intro l
  induction l with
  | nil =>
    intro a _ ha
    simp at ha
  | cons x xs ih =>
    intro a hp ha e he
    rw [List.pairwise_cons] at hp
    obtain ⟨hx, hxs⟩ := hp
    by_cases hxa : x = a
    · subst hxa
      rw [List.erase_cons_head] at he
      exact hx e he
    · have ha2 : a ∈ xs := by
        rcases List.mem_cons.mp ha with h | h
        · exact absurd h.symm hxa
        · exact h
      rw [List.erase_cons] at he
      rw [if_neg (by simp [hxa])] at he
      rcases List.mem_cons.mp he with rfl | he2
      · exact hsym e a (hx a ha2)
      · exact ih hxs ha2 e he2

/-- One filtering step preserves the size and positivity facts and the
pairwise non-inscription, assuming no current EMS is inscribed in the
candidate; the step itself rejects candidates inscribed in current EMSs. -/
theorem specStepLex_inv (size : Item) (acc : List EMS) (c : EMS)
    (hall : ∀ e ∈ acc, e.2 = size ∧ posExtentE e)
    (hpw : acc.Pairwise NIcw)
    (hnc : ∀ e ∈ acc, ¬ inscribedCW e c)
    (hc2 : c.2 = size) :
    (∀ e ∈ specStepLex acc c, e.2 = size ∧ posExtentE e) ∧
    (specStepLex acc c).Pairwise NIcw ∧
    (∀ e ∈ specStepLex acc c, e ∈ acc ∨ e = c) ∧
    (∀ e ∈ acc, e ∈ specStepLex acc c) := by
  unfold specStepLex
  by_cases hcond : posExtentE c ∧ ∀ e ∈ acc, ¬ lexInscribedP c e
  · rw [if_pos hcond]
    obtain ⟨hpos, hnlex⟩ := hcond
    have hnc2 : ∀ e ∈ acc, ¬ inscribedCW c e :=
      fun e he hins => hnlex e he (lexInscribedP_of_inscribedCW hins)
    refine ⟨?_, ?_, ?_, ?_⟩
    · intro e he
      rcases List.mem_append.mp he with he1 | he2
      · exact hall e he1
      · rw [List.mem_singleton] at he2
        subst he2
        exact ⟨hc2, hpos⟩
    · rw [List.pairwise_append]
      refine ⟨hpw, by simp, ?_⟩
      intro a ha e he
      rw [List.mem_singleton] at he
      subst he
      exact ⟨hnc a ha, hnc2 a ha⟩
    · intro e he
      rcases List.mem_append.mp he with he1 | he2
      · exact Or.inl he1
      · rw [List.mem_singleton] at he2
        exact Or.inr he2
    · intro e he
      exact List.mem_append_left _ he
  · rw [if_neg hcond]
    exact ⟨hall, hpw, fun e he => Or.inl he, fun e he => he⟩

/-- Preservation of the bin invariant by update: the filtering of each
candidate against the current list (lexicographic in the code) discards
every candidate componentwise-inscribed in a retained EMS; a retained EMS
componentwise-inscribed in a kept candidate would already have been
inscribed in the removed parent, contradicting the invariant; and distinct
candidates of one update are componentwise-incomparable whenever the item
has positive Y and Z extents. -/
theorem update_preserves_BinInv (b : Bin) (item : Item) (sel : EMS)
    (hinv : BinInv b) (hsel : sel ∈ b.EMSs)
    (hy : 0 < item.2.1) (hz : 0 < item.2.2) :
    BinInv (b.update item sel) := by
  obtain ⟨hall, hpw⟩ := hinv
  obtain ⟨hsel2, hselpos⟩ := hall sel hsel
  have hbase_all : ∀ e ∈ b.EMSs.erase sel, e.2 = b.size ∧ posExtentE e :=
    fun e he => hall e (List.mem_of_mem_erase he)
  have hbase_pw : (b.EMSs.erase sel).Pairwise NIcw :=
    hpw.sublist (List.erase_sublist _ _)
  have hbase_sel : ∀ e ∈ b.EMSs.erase sel, NIcw sel e :=
    fun e he => rel_of_pairwise_erase NIcw_symm hpw hsel e he
  have hno_old : ∀ ck : EMS, compLe sel.1 ck.1 → ck.2 = sel.2 →
      ∀ e ∈ b.EMSs.erase sel, ¬ inscribedCW e ck := by
    intro ck hk1 hk2 e he hins
    exact (hbase_sel e he).2 ⟨compLe_trans hk1 hins.1, hk2 ▸ hins.2⟩
  unfold Bin.update
  simp only [List.foldl_cons, List.foldl_nil, updStep_eq_specStepLex]
  obtain ⟨h1all, h1pw, h1sub, h1sup⟩ :=
    specStepLex_inv b.size (b.EMSs.erase sel)
      ((sel.1.1 + item.1, sel.1.2.1, sel.1.2.2), sel.2)
      hbase_all hbase_pw
      (hno_old _ ⟨Nat.le_add_right _ _, le_refl _, le_refl _⟩ rfl) hsel2
  obtain ⟨h2all, h2pw, h2sub, h2sup⟩ :=
    specStepLex_inv b.size _
      ((sel.1.1, sel.1.2.1 + item.2.1, sel.1.2.2), sel.2)
      h1all h1pw
      (by
        intro e he hins
        rcases h1sub e he with he1 | rfl
        · exact hno_old ((sel.1.1, sel.1.2.1 + item.2.1, sel.1.2.2), sel.2)
            ⟨le_refl _, Nat.le_add_right _ _, le_refl _⟩ rfl e he1 hins
        · obtain ⟨⟨_, hyy, _⟩, _⟩ := hins
          simp at hyy
          omega)
      hsel2
  obtain ⟨h3all, h3pw, h3sub, h3sup⟩ :=
    specStepLex_inv b.size _
      ((sel.1.1, sel.1.2.1, sel.1.2.2 + item.2.2), sel.2)
      h2all h2pw
      (by
        intro e he hins
        rcases h2sub e he with he1 | rfl
        · rcases h1sub e he1 with he0 | rfl
          · exact hno_old ((sel.1.1, sel.1.2.1, sel.1.2.2 + item.2.2), sel.2)
              ⟨le_refl _, le_refl _, Nat.le_add_right _ _⟩ rfl e he0 hins
          · obtain ⟨⟨_, _, hzz⟩, _⟩ := hins
            simp at hzz
            omega
        · obtain ⟨⟨_, _, hzz⟩, _⟩ := hins
          simp at hzz
          omega)
      hsel2
  exact ⟨h3all, h3pw⟩

/-- C4: for every bin satisfying the reachable-state invariant (all EMS
maxima equal the bin size, positive extents, pairwise non-inscription), a
chosen EMS of the bin and an item of strictly positive extents, after
update no retained EMS is componentwise inscribed in another and every
retained EMS has strictly positive extent on all three axes. -/
theorem c4_update_pruning_invariant (b : Bin) (item : Item) (sel : EMS)
    (hinv : BinInv b) (hsel : sel ∈ b.EMSs)
    (_hx : 0 < item.1) (hy : 0 < item.2.1) (hz : 0 < item.2.2) :
    (b.update item sel).EMSs.Pairwise NIcw ∧
    ∀ e ∈ (b.update item sel).EMSs, posExtentE e := by
  obtain ⟨hall2, hpw2⟩ := update_preserves_BinInv b item sel hinv hsel hy hz
  exact ⟨hpw2, fun e he => (hall2 e he).2⟩

/-- C4 witness: the fresh 10x10x10 bin, its initial EMS and item (2,3,4). -/
theorem c4_update_pruning_invariant_witness :
    ((Bin.init (10,10,10)).update (2,3,4) ((0,0,0),(10,10,10))).EMSs.Pairwise NIcw ∧
    ∀ e ∈ ((Bin.init (10,10,10)).update (2,3,4) ((0,0,0),(10,10,10))).EMSs,
      posExtentE e :=
  c4_update_pruning_invariant (Bin.init (10,10,10)) (2,3,4) ((0,0,0),(10,10,10))
    (by constructor <;> simp [Bin.init, posExtentE]) (by simp [Bin.init])
    (by decide) (by decide) (by decide)
